import Mathlib

/-!
A shallow embedding of the 3D-chess rules engine (board.py, pieces.py,
utils.py).  Positions are integer triples; the board's occupancy dict is
modelled as an association list with unique keys; pieces are values
{kind, color, position}, where `position` mirrors the Python object's
cached position attribute (the statement `piece.position = to_pos` in
`Board.move_piece` is modelled by rewriting the entry stored under the
destination key, which the dict references at that moment).
-/

namespace Chess3D

/-- A cell coordinate (x, y, z), an arbitrary integer triple as in Python. -/
structure Pos where
  x : Int
  y : Int
  z : Int
deriving DecidableEq, Repr

/-- Piece color: 'W' or 'B'. -/
inductive Color where
  | W
  | B
deriving DecidableEq, Repr

/-- The six piece kinds (the six Piece subclasses in pieces.py). -/
inductive PieceKind where
  | P
  | R
  | N
  | B
  | Q
  | K
deriving DecidableEq, Repr

/-- A piece value: kind (the subclass), color, and the cached position field. -/
structure Piece where
  kind : PieceKind
  color : Color
  position : Pos
deriving DecidableEq, Repr

/-- The board: dimensions and the `_pieces` occupancy dict, as an
association list from positions to pieces. -/
structure Board where
  nx : Int
  ny : Int
  nz : Int
  pieces : List (Pos × Piece)
deriving DecidableEq, Repr

/-- Dict lookup: first entry whose key equals `p` (keys are unique in any
state reachable through `set_piece`). -/
def lookupKey : List (Pos × Piece) → Pos → Option Piece
  | [], _ => none
  | e :: rest, p => if e.1 = p then some e.2 else lookupKey rest p

/-- Dict key removal: drop every entry stored under key `p`. -/
def removeKey : List (Pos × Piece) → Pos → List (Pos × Piece)
  | [], _ => []
  | e :: rest, p => if e.1 = p then removeKey rest p else e :: removeKey rest p

/-- Rewrite the cached-position field of the entry stored under `key`
(the effect of mutating, through the dict's reference, the piece object
stored there). -/
def updatePosAt : List (Pos × Piece) → Pos → Pos → List (Pos × Piece)
  | [], _, _ => []
  | e :: rest, key, newPos =>
    (if e.1 = key then (e.1, { e.2 with position := newPos }) else e) ::
      updatePosAt rest key newPos

/-- `Board.is_within_bounds`: 0 ≤ x < nx ∧ 0 ≤ y < ny ∧ 0 ≤ z < nz. -/
def Board.is_within_bounds (b : Board) (p : Pos) : Bool :=
  decide (0 ≤ p.x ∧ p.x < b.nx ∧ 0 ≤ p.y ∧ p.y < b.ny ∧ 0 ≤ p.z ∧ p.z < b.nz)

/-- `Board.get_piece`: the occupant of `p`, or none. -/
def Board.get_piece (b : Board) (p : Pos) : Option Piece :=
  lookupKey b.pieces p

/-- `Board.set_piece`: in bounds, a piece overwrites the occupant and `none`
clears the cell; out of bounds the call is a no-op. -/
def Board.set_piece (b : Board) (p : Pos) (piece : Option Piece) : Board :=
  if b.is_within_bounds p then
    match piece with
    | some pc => { b with pieces := removeKey b.pieces p ++ [(p, pc)] }
    | none => { b with pieces := removeKey b.pieces p }
  else
    b

/-- The shared capture rule at a destination: accept an empty cell or an
opposite-color occupant (`if not target_piece or target_piece.color != self.color`). -/
def captureOk (b : Board) (pc : Piece) (tp : Pos) : Bool :=
  match b.get_piece tp with
  | none => true
  | some target => decide (target.color ≠ pc.color)

/-- Interior walk of `is_clear_path`: starting at the first interior cell and
stepping by (xs, ys, zs), check `fuel` cells for bounds and emptiness. -/
def pathWalk (b : Board) (xs ys zs : Int) : Int → Int → Int → Nat → Bool
  | _, _, _, 0 => true
  | x, y, z, n + 1 =>
    if ¬ b.is_within_bounds ⟨x, y, z⟩ then false
    else if (b.get_piece ⟨x, y, z⟩).isSome then false
    else pathWalk b xs ys zs (x + xs) (y + ys) (z + zs) n

/-- `is_clear_path` (utils.py): step-vector decomposition by Python floor
division, a shape gate, then the interior walk of `steps - 1` cells. -/
def is_clear_path (b : Board) (from_pos to_pos : Pos) : Bool :=
  let dx := to_pos.x - from_pos.x
  let dy := to_pos.y - from_pos.y
  let dz := to_pos.z - from_pos.z
  let steps := max (max |dx| |dy|) |dz|
  if steps = 0 then true
  else
    let x_step := if dx ≠ 0 then Int.fdiv dx steps else 0
    let y_step := if dy ≠ 0 then Int.fdiv dy steps else 0
    let z_step := if dz ≠ 0 then Int.fdiv dz steps else 0
    if ¬ ((dx = 0 ∨ dy = 0 ∨ dz = 0) ∨
          (|dx| = |dy| ∧ |dy| = |dz| ∧ |dz| ≠ 0) ∨
          (|dx| = |dy| ∧ |dx| ≠ 0 ∧ dz = 0) ∨
          (|dx| = |dz| ∧ |dx| ≠ 0 ∧ dy = 0) ∨
          (|dy| = |dz| ∧ |dy| ≠ 0 ∧ dx = 0)) then
      false
    else
      pathWalk b x_step y_step z_step
        (from_pos.x + x_step) (from_pos.y + y_step) (from_pos.z + z_step)
        (steps - 1).toNat

/-- `Pawn._is_valid_move`. -/
def pawnValid (pc : Piece) (tp : Pos) (b : Board) : Bool :=
  let direction : Int := if pc.color = Color.W then 1 else -1
  let dx := tp.x - pc.position.x
  let dy := tp.y - pc.position.y
  let dz := tp.z - pc.position.z
  if dx = direction ∧ dy = 0 ∧ dz = 0 ∧ (b.get_piece tp).isNone then
    true
  else if dx = direction ∧ |dy| = 1 ∧ dz = 0 then
    match b.get_piece tp with
    | some target => decide (target.color ≠ pc.color)
    | none => false
  else
    false

/-- `Rook._is_valid_move`. -/
def rookValid (pc : Piece) (tp : Pos) (b : Board) : Bool :=
  let f := pc.position
  if (f.x = tp.x ∧ f.y = tp.y ∧ f.z ≠ tp.z) ∨
     (f.x = tp.x ∧ f.y ≠ tp.y ∧ f.z = tp.z) ∨
     (f.x ≠ tp.x ∧ f.y = tp.y ∧ f.z = tp.z) then
    if is_clear_path b f tp then captureOk b pc tp else false
  else
    false

/-- `Knight._is_valid_move`. -/
def knightValid (pc : Piece) (tp : Pos) (b : Board) : Bool :=
  let dx := |tp.x - pc.position.x|
  let dy := |tp.y - pc.position.y|
  let dz := |tp.z - pc.position.z|
  if dx ^ 2 + dy ^ 2 + dz ^ 2 = 5 then captureOk b pc tp else false

/-- `Bishop._is_valid_move`. -/
def bishopValid (pc : Piece) (tp : Pos) (b : Board) : Bool :=
  let dx := tp.x - pc.position.x
  let dy := tp.y - pc.position.y
  let dz := tp.z - pc.position.z
  if (|dx| = |dy| ∧ |dy| = |dz| ∧ |dz| ≠ 0) ∨
     (|dx| = |dy| ∧ |dx| ≠ 0 ∧ dz = 0) ∨
     (|dx| = |dz| ∧ |dx| ≠ 0 ∧ dy = 0) ∨
     (|dy| = |dz| ∧ |dy| ≠ 0 ∧ dx = 0) then
    if is_clear_path b pc.position tp then captureOk b pc tp else false
  else
    false

/-- `Queen._is_valid_move` (note: its first disjunct is
`(fx == tx) or (fy == ty) or (fz == tz)`, exactly as the source writes it). -/
def queenValid (pc : Piece) (tp : Pos) (b : Board) : Bool :=
  let f := pc.position
  let dx := tp.x - f.x
  let dy := tp.y - f.y
  let dz := tp.z - f.z
  if (f.x = tp.x ∨ f.y = tp.y ∨ f.z = tp.z) ∨
     (|dx| = |dy| ∧ |dy| = |dz| ∧ |dz| ≠ 0) ∨
     (|dx| = |dy| ∧ |dx| ≠ 0 ∧ dz = 0) ∨
     (|dx| = |dz| ∧ |dx| ≠ 0 ∧ dy = 0) ∨
     (|dy| = |dz| ∧ |dy| ≠ 0 ∧ dx = 0) then
    if is_clear_path b f tp then captureOk b pc tp else false
  else
    false

/-- `King._is_valid_move`. -/
def kingValid (pc : Piece) (tp : Pos) (b : Board) : Bool :=
  let dx := |tp.x - pc.position.x|
  let dy := |tp.y - pc.position.y|
  let dz := |tp.z - pc.position.z|
  if max (max dx dy) dz = 1 then captureOk b pc tp else false

/-- The kind-specific `_is_valid_move` dispatch (subclass override). -/
def Piece.kind_valid_move (pc : Piece) (tp : Pos) (b : Board) : Bool :=
  match pc.kind with
  | PieceKind.P => pawnValid pc tp b
  | PieceKind.R => rookValid pc tp b
  | PieceKind.N => knightValid pc tp b
  | PieceKind.B => bishopValid pc tp b
  | PieceKind.Q => queenValid pc tp b
  | PieceKind.K => kingValid pc tp b

/-- `Piece.is_valid_move`: the shared bounds and non-no-op checks, then the
kind-specific predicate. -/
def Piece.is_valid_move (pc : Piece) (to_position : Pos) (b : Board) : Bool :=
  if ¬ b.is_within_bounds to_position then false
  else if pc.position = to_position then false
  else pc.kind_valid_move to_position b

/-- `Board.move_piece`: look up the source, validate, then
`set_piece(to, piece); set_piece(from, None); piece.position = to`.
Returns the boolean result together with the updated board. -/
def Board.move_piece (b : Board) (from_pos to_pos : Pos) : Bool × Board :=
  match b.get_piece from_pos with
  | some piece =>
    if piece.is_valid_move to_pos b then
      let b1 := b.set_piece to_pos (some piece)
      let b2 := b1.set_piece from_pos none
      (true, { b2 with pieces := updatePosAt b2.pieces to_pos to_pos })
    else
      (false, b)
  | none => (false, b)

/-- `Board.is_game_over`: the opponent color has no King left. -/
def Board.is_game_over (b : Board) (opponent_color : Color) : Bool :=
  let opponent_pieces :=
    (b.pieces.map Prod.snd).filter (fun pc => decide (pc.color = opponent_color))
  let opponent_kings :=
    opponent_pieces.filter (fun pc => decide (pc.kind = PieceKind.K))
  if opponent_kings.isEmpty then true else false

/-- Place a kind at a position: the factory call (which constructs the piece
with exactly that position) followed by `set_piece`. -/
def placeAt (b : Board) (k : PieceKind) (c : Color) (p : Pos) : Board :=
  b.set_piece p (some ⟨k, c, p⟩)

/-- `Board._place_pieces`: pawns on a full y×z layer, then rooks, knights,
bishops at the corners and the central queens and kings. -/
def Board.place_pieces (b : Board) (color : Color) (start_x : Int) : Board :=
  let direction : Int := if color = Color.W then 1 else -1
  let pawn_row := start_x + direction
  let ny := b.ny
  let nz := b.nz
  let b := (List.range b.ny.toNat).foldl (fun acc y =>
    (List.range nz.toNat).foldl (fun acc2 z =>
      placeAt acc2 PieceKind.P color ⟨pawn_row, (y : Int), (z : Int)⟩) acc) b
  let b := [(⟨start_x, 0, 0⟩ : Pos), ⟨start_x, 0, nz - 1⟩,
            ⟨start_x, ny - 1, 0⟩, ⟨start_x, ny - 1, nz - 1⟩].foldl
    (fun acc p => placeAt acc PieceKind.R color p) b
  let b := [(⟨start_x, 0, 1⟩ : Pos), ⟨start_x, 0, nz - 2⟩,
            ⟨start_x, ny - 1, 1⟩, ⟨start_x, ny - 1, nz - 2⟩].foldl
    (fun acc p => placeAt acc PieceKind.N color p) b
  let b := [(⟨start_x, 0, 2⟩ : Pos), ⟨start_x, 0, nz - 3⟩,
            ⟨start_x, ny - 1, 2⟩, ⟨start_x, ny - 1, nz - 3⟩].foldl
    (fun acc p => placeAt acc PieceKind.B color p) b
  let center_y := Int.fdiv ny 2
  let center_z := Int.fdiv nz 2
  let b := [(⟨start_x, center_y - 1, center_z - 1⟩ : Pos),
            ⟨start_x, center_y - 1, center_z⟩].foldl
    (fun acc p => placeAt acc PieceKind.Q color p) b
  [(⟨start_x, center_y, center_z - 1⟩ : Pos),
   ⟨start_x, center_y, center_z⟩].foldl
    (fun acc p => placeAt acc PieceKind.K color p) b

/-- `Board.initialize_board`: white pieces from x = 0, black from x = nx−1. -/
def Board.init_board (b : Board) : Board :=
  (b.place_pieces Color.W 0).place_pieces Color.B (b.nx - 1)

/-- `Board.__init__`: an empty occupancy map of the given dimensions,
immediately populated by the initialization routine. -/
def Board.fresh (nx ny nz : Int) : Board :=
  (Board.mk nx ny nz []).init_board

/-- §3 invariant: every entry's cached position field equals the key it is
stored under. -/
def CacheInv (b : Board) : Prop :=
  ∀ e ∈ b.pieces, e.2.position = e.1

/-- §3 invariant: every occupied position is within bounds. -/
def BoundsInv (b : Board) : Prop :=
  ∀ e ∈ b.pieces, b.is_within_bounds e.1 = true

instance (b : Board) : Decidable (CacheInv b) :=
  inferInstanceAs (Decidable (∀ e ∈ b.pieces, e.2.position = e.1))

instance (b : Board) : Decidable (BoundsInv b) :=
  inferInstanceAs (Decidable (∀ e ∈ b.pieces, b.is_within_bounds e.1 = true))

/-- Written from the spec's words, for comparison with the code: the rook
shape — exactly one axis has a non-zero delta. -/
def specRookShape (o t : Pos) : Prop :=
  (o.x = t.x ∧ o.y = t.y ∧ o.z ≠ t.z) ∨
  (o.x = t.x ∧ o.y ≠ t.y ∧ o.z = t.z) ∨
  (o.x ≠ t.x ∧ o.y = t.y ∧ o.z = t.z)

/-- Written from the spec's words, for comparison with the code: the bishop
shape — two axes equal in absolute non-zero delta and the third zero, or all
three axes equal in absolute non-zero delta. -/
def specBishopShape (o t : Pos) : Prop :=
  (|t.x - o.x| = |t.y - o.y| ∧ t.x - o.x ≠ 0 ∧ t.z - o.z = 0) ∨
  (|t.x - o.x| = |t.z - o.z| ∧ t.x - o.x ≠ 0 ∧ t.y - o.y = 0) ∨
  (|t.y - o.y| = |t.z - o.z| ∧ t.y - o.y ≠ 0 ∧ t.x - o.x = 0) ∨
  (|t.x - o.x| = |t.y - o.y| ∧ |t.y - o.y| = |t.z - o.z| ∧ t.x - o.x ≠ 0)

/-- Written from the spec's words: a delta vector that is a straight line
along one axis or a diagonal with equal absolute deltas on its non-zero
axes; anything else is an irregular vector. -/
def specStraightOrDiagonal (o t : Pos) : Prop :=
  specRookShape o t ∨ specBishopShape o t

instance (o t : Pos) : Decidable (specRookShape o t) := by
  unfold specRookShape
  infer_instance

instance (o t : Pos) : Decidable (specBishopShape o t) := by
  unfold specBishopShape
  infer_instance

instance (o t : Pos) : Decidable (specStraightOrDiagonal o t) := by
  unfold specStraightOrDiagonal
  infer_instance

/-- Written from the claim's words: the absolute deltas use exactly two
non-zero axes with magnitudes {1, 2} in some order, the third axis delta
being 0. -/
def knightDeltaPattern (dx dy dz : Int) : Prop :=
  (|dx| = 1 ∧ |dy| = 2 ∧ dz = 0) ∨ (|dx| = 2 ∧ |dy| = 1 ∧ dz = 0) ∨
  (|dx| = 1 ∧ dy = 0 ∧ |dz| = 2) ∨ (|dx| = 2 ∧ dy = 0 ∧ |dz| = 1) ∨
  (dx = 0 ∧ |dy| = 1 ∧ |dz| = 2) ∨ (dx = 0 ∧ |dy| = 2 ∧ |dz| = 1)

instance (dx dy dz : Int) : Decidable (knightDeltaPattern dx dy dz) := by
  unfold knightDeltaPattern
  infer_instance

/-- An empty 8×4×4 board (the test suite's cleared default board). -/
def emptyBoard : Board := ⟨8, 4, 4, []⟩

/-- A board holding only a white queen at the origin. -/
def queenOnlyBoard : Board :=
  ⟨8, 4, 4, [(⟨0, 0, 0⟩, ⟨PieceKind.Q, Color.W, ⟨0, 0, 0⟩⟩)]⟩

/-- A white pawn at (1,1,1) facing black pawns at (2,2,1) (a y-diagonal)
and (2,1,2) (a z-diagonal). -/
def pawnCaptureBoard : Board :=
  ⟨8, 4, 4, [(⟨1, 1, 1⟩, ⟨PieceKind.P, Color.W, ⟨1, 1, 1⟩⟩),
             (⟨2, 2, 1⟩, ⟨PieceKind.P, Color.B, ⟨2, 2, 1⟩⟩),
             (⟨2, 1, 2⟩, ⟨PieceKind.P, Color.B, ⟨2, 1, 2⟩⟩)]⟩

/-- A board holding only a white rook at the origin. -/
def rookOnlyBoard : Board :=
  ⟨8, 4, 4, [(⟨0, 0, 0⟩, ⟨PieceKind.R, Color.W, ⟨0, 0, 0⟩⟩)]⟩

/-- A board holding only a white knight at (1,1,1). -/
def knightOnlyBoard : Board :=
  ⟨8, 4, 4, [(⟨1, 1, 1⟩, ⟨PieceKind.N, Color.W, ⟨1, 1, 1⟩⟩)]⟩

/-- The knight board with an extra black pawn at (2,1,1), adjacent to the
knight but away from the destination (3,2,1). -/
def knightBlockedBoard : Board :=
  ⟨8, 4, 4, [(⟨1, 1, 1⟩, ⟨PieceKind.N, Color.W, ⟨1, 1, 1⟩⟩),
             (⟨2, 1, 1⟩, ⟨PieceKind.P, Color.B, ⟨2, 1, 1⟩⟩)]⟩

/-- A fresh default board with a white pawn whose cached position is the
origin stored at (3,0,0) by a bare `set_piece`. -/
def staleCacheBoard : Board :=
  (Board.fresh 8 4 4).set_piece ⟨3, 0, 0⟩ (some ⟨PieceKind.P, Color.W, ⟨0, 0, 0⟩⟩)

/-! ### Lemmas about the occupancy-map primitives -/

theorem lookupKey_removeKey (l : List (Pos × Piece)) (p q : Pos) :
    lookupKey (removeKey l p) q = if q = p then none else lookupKey l q := by
  induction l with
  | nil => simp [removeKey, lookupKey]
  | cons e rest ih =>
    by_cases hep : e.1 = p
    · rw [removeKey, if_pos hep, ih]
      by_cases hqp : q = p
      · simp [hqp]
      · have heq : ¬ e.1 = q := fun h => hqp (h ▸ hep)
        simp [lookupKey, hqp, heq]
    · rw [removeKey, if_neg hep, lookupKey, lookupKey]
      by_cases heq : e.1 = q
      · have hqp : ¬ q = p := fun h => hep (heq.symm ▸ h)
        simp [heq, hqp]
      · simp [heq, ih]

theorem lookupKey_remove_append (l : List (Pos × Piece)) (p : Pos) (pc : Piece)
    (q : Pos) :
    lookupKey (removeKey l p ++ [(p, pc)]) q =
      if q = p then some pc else lookupKey l q := by
  induction l with
  | nil =>
    by_cases hqp : q = p
    · simp [removeKey, lookupKey, hqp]
    · simp only [removeKey, List.nil_append, lookupKey, if_neg hqp]
      rw [if_neg (fun h => hqp h.symm)]
  | cons e rest ih =>
    by_cases hep : e.1 = p
    · rw [removeKey, if_pos hep, ih]
      by_cases hqp : q = p
      · simp [hqp]
      · have heq : ¬ e.1 = q := fun h => hqp (h ▸ hep)
        simp [lookupKey, hqp, heq]
    · rw [removeKey, if_neg hep, List.cons_append, lookupKey, lookupKey]
      by_cases heq : e.1 = q
      · have hqp : ¬ q = p := fun h => hep (heq.symm ▸ h)
        simp [heq, hqp]
      · simp [heq, ih]

theorem lookupKey_updatePosAt (l : List (Pos × Piece)) (k np q : Pos) :
    lookupKey (updatePosAt l k np) q =
      (lookupKey l q).map
        (fun pc => if q = k then { pc with position := np } else pc) := by
  induction l with
  | nil => simp [updatePosAt, lookupKey]
  | cons e rest ih =>
    rw [updatePosAt]
    by_cases hek : e.1 = k
    · rw [if_pos hek, lookupKey, lookupKey]
      by_cases heq : e.1 = q
      · have hqk : q = k := heq ▸ hek
        simp [heq, hqk]
      · simp [heq, ih]
    · rw [if_neg hek, lookupKey, lookupKey]
      by_cases heq : e.1 = q
      · have hqk : ¬ q = k := fun h => hek (heq.symm ▸ h)
        simp [heq, hqk]
      · simp [heq, ih]

theorem lookupKey_mem {l : List (Pos × Piece)} {p : Pos} {pc : Piece}
    (h : lookupKey l p = some pc) : (p, pc) ∈ l := by
  induction l with
  | nil => simp [lookupKey] at h
  | cons e rest ih =>
    by_cases he : e.1 = p
    · rw [lookupKey, if_pos he] at h
      have : e = (p, pc) := by
        rcases e with ⟨e1, e2⟩
        simp at he h
        exact Prod.ext he h
      exact this ▸ List.mem_cons_self _ _
    · rw [lookupKey, if_neg he] at h
      exact List.mem_cons_of_mem _ (ih h)

theorem mem_removeKey {l : List (Pos × Piece)} {p : Pos} {e : Pos × Piece}
    (h : e ∈ removeKey l p) : e ∈ l := by
  induction l with
  | nil => simp [removeKey] at h
  | cons a rest ih =>
    rw [removeKey] at h
    by_cases hap : a.1 = p
    · rw [if_pos hap] at h
      exact List.mem_cons_of_mem _ (ih h)
    · rw [if_neg hap] at h
      rcases List.mem_cons.mp h with h1 | h2
      · exact h1 ▸ List.mem_cons_self _ _
      · exact List.mem_cons_of_mem _ (ih h2)

theorem mem_updatePosAt {l : List (Pos × Piece)} {k np : Pos}
    {e : Pos × Piece} (h : e ∈ updatePosAt l k np) :
    ∃ o ∈ l, e = if o.1 = k then (o.1, { o.2 with position := np }) else o := by
  induction l with
  | nil => simp [updatePosAt] at h
  | cons a rest ih =>
    rw [updatePosAt] at h
    rcases List.mem_cons.mp h with h1 | h2
    · exact ⟨a, List.mem_cons_self _ _, h1⟩
    · rcases ih h2 with ⟨o, ho, heq⟩
      exact ⟨o, List.mem_cons_of_mem _ ho, heq⟩

theorem set_piece_nx (b : Board) (p : Pos) (o : Option Piece) :
    (b.set_piece p o).nx = b.nx := by
  unfold Board.set_piece
  split
  · cases o <;> rfl
  · rfl

theorem set_piece_ny (b : Board) (p : Pos) (o : Option Piece) :
    (b.set_piece p o).ny = b.ny := by
  unfold Board.set_piece
  split
  · cases o <;> rfl
  · rfl

theorem set_piece_nz (b : Board) (p : Pos) (o : Option Piece) :
    (b.set_piece p o).nz = b.nz := by
  unfold Board.set_piece
  split
  · cases o <;> rfl
  · rfl

theorem is_within_bounds_set_piece (b : Board) (p : Pos) (o : Option Piece)
    (q : Pos) :
    (b.set_piece p o).is_within_bounds q = b.is_within_bounds q := by
  unfold Board.is_within_bounds
  rw [set_piece_nx, set_piece_ny, set_piece_nz]

theorem get_piece_set_some (b : Board) (p : Pos) (pc : Piece) (q : Pos)
    (h : b.is_within_bounds p = true) :
    (b.set_piece p (some pc)).get_piece q =
      if q = p then some pc else b.get_piece q := by
  unfold Board.set_piece Board.get_piece
  simp [h, lookupKey_remove_append]

theorem get_piece_set_none (b : Board) (p : Pos) (q : Pos)
    (h : b.is_within_bounds p = true) :
    (b.set_piece p none).get_piece q =
      if q = p then none else b.get_piece q := by
  unfold Board.set_piece Board.get_piece
  simp [h, lookupKey_removeKey]

theorem mem_set_piece {b : Board} {p : Pos} {o : Option Piece}
    {e : Pos × Piece} (he : e ∈ (b.set_piece p o).pieces) :
    e ∈ b.pieces ∨ (o = some e.2 ∧ e.1 = p) := by
  unfold Board.set_piece at he
  split at he
  · cases o with
    | some pc =>
      simp only at he
      rcases List.mem_append.mp he with h1 | h2
      · exact Or.inl (mem_removeKey h1)
      · simp at h2
        subst h2
        exact Or.inr ⟨rfl, rfl⟩
    | none =>
      simp only at he
      exact Or.inl (mem_removeKey he)
  · exact Or.inl he

theorem is_valid_move_true_elim {pc : Piece} {t : Pos} {b : Board}
    (h : pc.is_valid_move t b = true) :
    b.is_within_bounds t = true ∧ pc.position ≠ t := by
  unfold Piece.is_valid_move at h
  split_ifs at h with h1 h2
  exact ⟨h1, h2⟩

theorem is_valid_move_eq_kind {pc : Piece} {t : Pos} {b : Board}
    (hb : b.is_within_bounds t = true) (hne : pc.position ≠ t) :
    pc.is_valid_move t b = pc.kind_valid_move t b := by
  unfold Piece.is_valid_move
  simp [hb, hne]


theorem get_piece_update (b2 : Board) (k np q : Pos) :
    (Board.mk b2.nx b2.ny b2.nz (updatePosAt b2.pieces k np)).get_piece q =
      (b2.get_piece q).map
        (fun pc => if q = k then { pc with position := np } else pc) := by
  unfold Board.get_piece
  exact lookupKey_updatePosAt _ _ _ _


/-! ### Claim theorems -/

/-- C1: the claim says the queen accepts exactly the union of the rook and
bishop shapes (with a clear path and a capturable destination).  The code
diverges: its first shape disjunct is `(fx == tx) or (fy == ty) or (fz == tz)`,
so the irregular move (0,0,0) → (2,1,0) is accepted on a board holding only
the white queen, although it is neither rook- nor bishop-shaped — the repo's
own test `test_queen_invalid_moves` expects this move to be rejected. -/
theorem C1_queen_accepts_non_rook_non_bishop_move :
    Piece.is_valid_move ⟨PieceKind.Q, Color.W, ⟨0, 0, 0⟩⟩ ⟨2, 1, 0⟩
        queenOnlyBoard = true ∧
      ¬ specStraightOrDiagonal ⟨0, 0, 0⟩ ⟨2, 1, 0⟩ := by
  decide

/-- C3: the claim says `is_clear_path` rejects every irregular delta vector
such as (2,1,0).  The code's shape gate passes whenever some axis delta is
zero, so on an empty board the irregular vector (0,0,0) → (2,1,0) walks the
single interior cell (1,0,0) and returns accept — the repo's own test
`test_is_clear_path_invalid_movement` expects reject here. -/
theorem C3_clear_path_accepts_irregular_vector :
    is_clear_path emptyBoard ⟨0, 0, 0⟩ ⟨2, 1, 0⟩ = true ∧
      ¬ specStraightOrDiagonal ⟨0, 0, 0⟩ ⟨2, 1, 0⟩ := by
  decide

/-- C2 counterexample: the claim says a pawn capture with z-delta ±1 and
y-delta 0 is legal; in the code the white pawn at (1,1,1) cannot capture the
black pawn at (2,1,2) (only `abs(dy) == 1 and dz == 0` diagonals are
accepted). -/
theorem C2_pawn_z_capture_rejected :
    pawnCaptureBoard.get_piece ⟨2, 1, 2⟩ =
        some ⟨PieceKind.P, Color.B, ⟨2, 1, 2⟩⟩ ∧
      Piece.is_valid_move ⟨PieceKind.P, Color.W, ⟨1, 1, 1⟩⟩ ⟨2, 1, 2⟩
        pawnCaptureBoard = false := by
  decide

/-- C7: `is_game_over(color)` is true iff no occupancy entry is a piece of
that color whose kind is King. -/
theorem C7_game_over_iff_no_king (b : Board) (c : Color) :
    b.is_game_over c = true ↔
      ∀ e ∈ b.pieces, ¬ (e.2.color = c ∧ e.2.kind = PieceKind.K) := by
  unfold Board.is_game_over
  dsimp only
  split
  · rename_i hemp
    simp only [List.isEmpty_iff, List.filter_eq_nil_iff, List.mem_filter,
      List.mem_map, decide_eq_true_eq] at hemp
    constructor
    · intro _ e he hck
      exact hemp e.2 ⟨⟨e, he, rfl⟩, hck.1⟩ hck.2
    · intro _
      rfl
  · rename_i hemp
    simp only [List.isEmpty_iff, List.filter_eq_nil_iff, List.mem_filter,
      List.mem_map, decide_eq_true_eq] at hemp
    push_neg at hemp
    constructor
    · intro hfalse
      exact absurd hfalse (by simp)
    · intro h
      exfalso
      rcases hemp with ⟨pc, ⟨⟨e, he, hsnd⟩, hcol⟩, hkind⟩
      exact h e he ⟨hsnd ▸ hcol, hsnd ▸ hkind⟩

/-- C9: `set_piece(p, q)` at an in-bounds position stores the piece value `q`
itself under key `p` — in particular its cached position field is not
updated, so the stored key may differ from the stored cache. -/
theorem C9_set_piece_stores_without_cache_update (b : Board) (p : Pos)
    (q : Piece) (h : b.is_within_bounds p = true) :
    (b.set_piece p (some q)).get_piece p = some q := by
  rw [get_piece_set_some b p q p h, if_pos rfl]

/-- C9 witness: a pawn whose cached position is the origin is stored intact
under key (3,0,0) on an empty in-bounds board. -/
theorem C9_set_piece_stores_without_cache_update_witness :
    ((Board.mk 8 4 4 []).set_piece ⟨3, 0, 0⟩
        (some ⟨PieceKind.P, Color.W, ⟨0, 0, 0⟩⟩)).get_piece ⟨3, 0, 0⟩ =
      some ⟨PieceKind.P, Color.W, ⟨0, 0, 0⟩⟩ :=
  C9_set_piece_stores_without_cache_update (Board.mk 8 4 4 []) ⟨3, 0, 0⟩
    ⟨PieceKind.P, Color.W, ⟨0, 0, 0⟩⟩ (by decide)

/-- C10: `is_clear_path(board, p, p)` is true for every board and position:
the zero-delta case takes the `steps == 0` early return. -/
theorem C10_clear_path_same_position (b : Board) (p : Pos) :
    is_clear_path b p p = true := by
  unfold is_clear_path
  simp


set_option maxRecDepth 100000 in
/-- C4 counterexample: on a fresh default board, a bare
`set_piece((3,0,0), pawn cached at (0,0,0))` stores the pawn under a key
that differs from its cached position, so the claimed invariant fails for
arbitrary `set` calls. -/
theorem C4_cache_invariant_counterexample :
    staleCacheBoard.get_piece ⟨3, 0, 0⟩ =
        some ⟨PieceKind.P, Color.W, ⟨0, 0, 0⟩⟩ ∧
      ¬ CacheInv staleCacheBoard := by
  decide

set_option maxRecDepth 100000 in
/-- C4 amended: the cached-position invariant holds on the freshly
initialized default board and is preserved by `move_piece`, by clearing a
cell, and by `set_piece(p, piece)` whenever the stored piece's cached
position equals `p` (as in initialization); a bare `set_piece` with a
mismatched piece is the one operation that can break it. -/
theorem C4_cache_invariant_amended :
    CacheInv (Board.fresh 8 4 4) ∧
      (∀ b p pc, CacheInv b → pc.position = p →
        CacheInv (b.set_piece p (some pc))) ∧
      (∀ b p, CacheInv b → CacheInv (b.set_piece p none)) ∧
      (∀ b f t, CacheInv b → CacheInv (b.move_piece f t).2) := by
  refine ⟨by decide, ?_, ?_, ?_⟩
  · intro b p pc hinv hpos e he
    rcases mem_set_piece he with h1 | h2
    · exact hinv e h1
    · rcases h2 with ⟨hsome, hkey⟩
      have hpc : pc = e.2 := by injection hsome
      rw [← hpc, hkey, hpos]
  · intro b p hinv e he
    rcases mem_set_piece he with h1 | h2
    · exact hinv e h1
    · cases h2.1
  · intro b f t hinv
    unfold Board.move_piece
    rcases hg : b.get_piece f with _ | piece
    · exact hinv
    · by_cases hv : piece.is_valid_move t b = true
      · simp only [hv, if_true]
        intro e he
        dsimp only at he
        rcases mem_updatePosAt he with ⟨o, ho, heq⟩
        have ho1 : o ∈ ((b.set_piece t (some piece)).set_piece f none).pieces :=
          ho
        have ho2 : o ∈ (b.set_piece t (some piece)).pieces := by
          rcases mem_set_piece ho1 with h1 | h2
          · exact h1
          · cases h2.1
        by_cases hot : o.1 = t
        · rw [heq, if_pos hot]
          exact hot.symm
        · rw [heq, if_neg hot]
          rcases mem_set_piece ho2 with h1 | h2
          · exact hinv o h1
          · exact absurd h2.2 hot
      · simp only [hv, if_false]
        exact hinv

/-- C4 amended witness: inserting a pawn whose cached position matches the
key preserves the invariant on a concrete board. -/
theorem C4_cache_invariant_amended_witness :
    CacheInv ((Board.mk 8 4 4 []).set_piece ⟨1, 1, 1⟩
      (some ⟨PieceKind.P, Color.W, ⟨1, 1, 1⟩⟩)) :=
  C4_cache_invariant_amended.2.1 (Board.mk 8 4 4 []) ⟨1, 1, 1⟩
    ⟨PieceKind.P, Color.W, ⟨1, 1, 1⟩⟩ (by decide) rfl

/-- C5: on a board satisfying the documented occupancy invariants, a
successful `move_piece(f, t)` leaves no piece at `f` and stores at `t` the
moved piece with its cached position updated to `t` (the previous occupant
of `t`, if any, is overwritten). -/
theorem C5_move_success_postconditions (b : Board) (f t : Pos)
    (hbounds : BoundsInv b) (hcache : CacheInv b)
    (h : (b.move_piece f t).1 = true) :
    (b.get_piece f).isSome = true ∧
      (b.move_piece f t).2.get_piece f = none ∧
      (b.move_piece f t).2.get_piece t =
        (b.get_piece f).map (fun pc => { pc with position := t }) := by
  rcases hg : b.get_piece f with _ | piece
  · unfold Board.move_piece at h
    rw [hg] at h
    exact absurd h (by simp)
  · have hmem := lookupKey_mem hg
    have hpos : piece.position = f := hcache _ hmem
    have hfb : b.is_within_bounds f = true := hbounds _ hmem
    by_cases hv : piece.is_valid_move t b = true
    · have hbt : b.is_within_bounds t = true := (is_valid_move_true_elim hv).1
      have hft : f ≠ t := fun hft =>
        (is_valid_move_true_elim hv).2 (hpos.trans hft)
      have hmove : b.move_piece f t =
          (true,
            Board.mk ((b.set_piece t (some piece)).set_piece f none).nx
              ((b.set_piece t (some piece)).set_piece f none).ny
              ((b.set_piece t (some piece)).set_piece f none).nz
              (updatePosAt
                ((b.set_piece t (some piece)).set_piece f none).pieces t t)) := by
        unfold Board.move_piece
        rw [hg]
        simp [hv]
      have hB1f : (b.set_piece t (some piece)).is_within_bounds f = true := by
        rw [is_within_bounds_set_piece]
        exact hfb
      have hB2f :
          ((b.set_piece t (some piece)).set_piece f none).get_piece f = none := by
        rw [get_piece_set_none _ _ _ hB1f, if_pos rfl]
      have hB2t :
          ((b.set_piece t (some piece)).set_piece f none).get_piece t =
            some piece := by
        rw [get_piece_set_none _ _ _ hB1f, if_neg (fun h2 => hft h2.symm),
          get_piece_set_some _ _ _ _ hbt, if_pos rfl]
      refine ⟨by simp, ?_, ?_⟩
      · rw [hmove, get_piece_update, hB2f]
        rfl
      · rw [hmove, get_piece_update, hB2t]
        simp
    · unfold Board.move_piece at h
      rw [hg] at h
      simp [hv] at h

/-- C5 witness: the lone white rook moves from the origin to (0,3,0). -/
theorem C5_move_success_postconditions_witness :
    (rookOnlyBoard.get_piece ⟨0, 0, 0⟩).isSome = true ∧
      (rookOnlyBoard.move_piece ⟨0, 0, 0⟩ ⟨0, 3, 0⟩).2.get_piece ⟨0, 0, 0⟩ =
        none ∧
      (rookOnlyBoard.move_piece ⟨0, 0, 0⟩ ⟨0, 3, 0⟩).2.get_piece ⟨0, 3, 0⟩ =
        (rookOnlyBoard.get_piece ⟨0, 0, 0⟩).map
          (fun pc => { pc with position := ⟨0, 3, 0⟩ }) :=
  C5_move_success_postconditions rookOnlyBoard ⟨0, 0, 0⟩ ⟨0, 3, 0⟩ (by decide)
    (by decide) (by decide)

/-- C6: on a board satisfying the cached-position invariant, `move_piece`
returns false and leaves the board exactly unchanged whenever the source is
empty, the destination equals the source, the destination is out of bounds,
or the kind-specific movement predicate rejects the destination. -/
theorem C6_move_failure_leaves_board_unchanged (b : Board) (f t : Pos)
    (hcache : CacheInv b)
    (h : b.get_piece f = none ∨ t = f ∨ b.is_within_bounds t = false ∨
      ∀ pc, b.get_piece f = some pc → pc.kind_valid_move t b = false) :
    b.move_piece f t = (false, b) := by
  rcases hg : b.get_piece f with _ | piece
  · unfold Board.move_piece
    rw [hg]
  · have hpos : piece.position = f := hcache _ (lookupKey_mem hg)
    have hvfalse : piece.is_valid_move t b = false := by
      rcases h with h1 | h2 | h3 | h4
      · rw [hg] at h1
        cases h1
      · have hpt : piece.position = t := by rw [hpos, h2]
        unfold Piece.is_valid_move
        simp [hpt]
      · unfold Piece.is_valid_move
        simp [h3]
      · have hkv := h4 piece hg
        unfold Piece.is_valid_move
        simp [hkv]
    unfold Board.move_piece
    rw [hg]
    simp [hvfalse]

/-- C6 witness: moving from an empty source square on the empty board fails
and leaves the board unchanged. -/
theorem C6_move_failure_leaves_board_unchanged_witness :
    emptyBoard.move_piece ⟨0, 0, 0⟩ ⟨1, 0, 0⟩ = (false, emptyBoard) :=
  C6_move_failure_leaves_board_unchanged emptyBoard ⟨0, 0, 0⟩ ⟨1, 0, 0⟩
    (by decide) (Or.inl (by decide))


/-- C2 amended: for a pawn at an in-bounds destination distinct from its
position, a capture (destination occupied) is accepted iff the advance-axis
delta equals the pawn's forward direction, the y-delta has absolute value 1,
the z-delta is 0, and the occupant has the opposite color; z-diagonals are
rejected. -/
theorem C2_pawn_capture_amended (pc : Piece) (b : Board) (t : Pos)
    (hk : pc.kind = PieceKind.P)
    (hb : b.is_within_bounds t = true)
    (hne : pc.position ≠ t) :
    (pc.is_valid_move t b = true ∧ (b.get_piece t).isSome = true) ↔
      (t.x - pc.position.x = (if pc.color = Color.W then 1 else -1) ∧
        |t.y - pc.position.y| = 1 ∧ t.z - pc.position.z = 0 ∧
        ∃ q, b.get_piece t = some q ∧ q.color ≠ pc.color) := by
  rw [is_valid_move_eq_kind hb hne]
  unfold Piece.kind_valid_move
  rw [hk]
  unfold pawnValid
  dsimp only
  rcases hq : b.get_piece t with _ | q
  · simp [hq]
  · by_cases hcond : (t.x - pc.position.x = (if pc.color = Color.W then 1 else -1) ∧
        |t.y - pc.position.y| = 1 ∧ t.z - pc.position.z = 0)
    · simp [hq, hcond]
    · simp [hq, hcond]
      intro h1 h2 h3
      exact absurd ⟨h1, h2, h3⟩ hcond

/-- C2 amended witness: the white pawn at (1,1,1) capturing the black pawn
at (2,2,1). -/
theorem C2_pawn_capture_amended_witness :
    (Piece.is_valid_move ⟨PieceKind.P, Color.W, ⟨1, 1, 1⟩⟩ ⟨2, 2, 1⟩
          pawnCaptureBoard = true ∧
        (pawnCaptureBoard.get_piece ⟨2, 2, 1⟩).isSome = true) ↔
      ((2 : Int) - 1 = (if Color.W = Color.W then (1 : Int) else -1) ∧
        |(2 : Int) - 1| = 1 ∧ (1 : Int) - 1 = 0 ∧
        ∃ q, pawnCaptureBoard.get_piece ⟨2, 2, 1⟩ = some q ∧
          q.color ≠ Color.W) :=
  C2_pawn_capture_amended ⟨PieceKind.P, Color.W, ⟨1, 1, 1⟩⟩ pawnCaptureBoard
    ⟨2, 2, 1⟩ rfl (by decide) (by decide)

theorem sq_sum_eq_five_nat (a b c : Nat) :
    a ^ 2 + b ^ 2 + c ^ 2 = 5 ↔
      ((a = 1 ∧ b = 2 ∧ c = 0) ∨ (a = 2 ∧ b = 1 ∧ c = 0) ∨
        (a = 1 ∧ b = 0 ∧ c = 2) ∨ (a = 2 ∧ b = 0 ∧ c = 1) ∨
        (a = 0 ∧ b = 1 ∧ c = 2) ∨ (a = 0 ∧ b = 2 ∧ c = 1)) := by
  constructor
  · intro h
    have ha : a ≤ 2 := by nlinarith
    have hb : b ≤ 2 := by nlinarith
    have hc : c ≤ 2 := by nlinarith
    interval_cases a <;> interval_cases b <;> interval_cases c <;>
      revert h <;> decide
  · rintro (⟨rfl, rfl, rfl⟩ | ⟨rfl, rfl, rfl⟩ | ⟨rfl, rfl, rfl⟩ |
      ⟨rfl, rfl, rfl⟩ | ⟨rfl, rfl, rfl⟩ | ⟨rfl, rfl, rfl⟩) <;> decide

theorem knight_delta_sq_iff (dx dy dz : Int) :
    |dx| ^ 2 + |dy| ^ 2 + |dz| ^ 2 = 5 ↔ knightDeltaPattern dx dy dz := by
  unfold knightDeltaPattern
  rw [Int.abs_eq_natAbs dx, Int.abs_eq_natAbs dy, Int.abs_eq_natAbs dz]
  constructor
  · intro h
    have hnat : dx.natAbs ^ 2 + dy.natAbs ^ 2 + dz.natAbs ^ 2 = 5 := by
      exact_mod_cast h
    rcases (sq_sum_eq_five_nat _ _ _).mp hnat with h6 | h6 | h6 | h6 | h6 | h6
    · exact Or.inl ⟨by exact_mod_cast h6.1, by exact_mod_cast h6.2.1,
        Int.natAbs_eq_zero.mp h6.2.2⟩
    · exact Or.inr (Or.inl ⟨by exact_mod_cast h6.1, by exact_mod_cast h6.2.1,
        Int.natAbs_eq_zero.mp h6.2.2⟩)
    · exact Or.inr (Or.inr (Or.inl ⟨by exact_mod_cast h6.1,
        Int.natAbs_eq_zero.mp h6.2.1, by exact_mod_cast h6.2.2⟩))
    · exact Or.inr (Or.inr (Or.inr (Or.inl ⟨by exact_mod_cast h6.1,
        Int.natAbs_eq_zero.mp h6.2.1, by exact_mod_cast h6.2.2⟩)))
    · exact Or.inr (Or.inr (Or.inr (Or.inr (Or.inl
        ⟨Int.natAbs_eq_zero.mp h6.1, by exact_mod_cast h6.2.1,
          by exact_mod_cast h6.2.2⟩))))
    · exact Or.inr (Or.inr (Or.inr (Or.inr (Or.inr
        ⟨Int.natAbs_eq_zero.mp h6.1, by exact_mod_cast h6.2.1,
          by exact_mod_cast h6.2.2⟩))))
  · intro h6
    have hnat : dx.natAbs ^ 2 + dy.natAbs ^ 2 + dz.natAbs ^ 2 = 5 := by
      apply (sq_sum_eq_five_nat _ _ _).mpr
      rcases h6 with ⟨h1, h2, h3⟩ | ⟨h1, h2, h3⟩ | ⟨h1, h2, h3⟩ |
        ⟨h1, h2, h3⟩ | ⟨h1, h2, h3⟩ | ⟨h1, h2, h3⟩
      · exact Or.inl ⟨by exact_mod_cast h1, by exact_mod_cast h2,
          Int.natAbs_eq_zero.mpr h3⟩
      · exact Or.inr (Or.inl ⟨by exact_mod_cast h1, by exact_mod_cast h2,
          Int.natAbs_eq_zero.mpr h3⟩)
      · exact Or.inr (Or.inr (Or.inl ⟨by exact_mod_cast h1,
          Int.natAbs_eq_zero.mpr h2, by exact_mod_cast h3⟩))
      · exact Or.inr (Or.inr (Or.inr (Or.inl ⟨by exact_mod_cast h1,
          Int.natAbs_eq_zero.mpr h2, by exact_mod_cast h3⟩)))
      · exact Or.inr (Or.inr (Or.inr (Or.inr (Or.inl
          ⟨Int.natAbs_eq_zero.mpr h1, by exact_mod_cast h2,
            by exact_mod_cast h3⟩))))
      · exact Or.inr (Or.inr (Or.inr (Or.inr (Or.inr
          ⟨Int.natAbs_eq_zero.mpr h1, by exact_mod_cast h2,
            by exact_mod_cast h3⟩))))
    exact_mod_cast hnat

/-- C8: for a knight at an in-bounds destination distinct from its position,
the move is accepted iff the squared Euclidean length of the delta is 5 —
equivalently the absolute deltas are {1,2} on two axes and 0 on the third —
and the destination is empty or holds an opposite-color piece; moreover the
result is unchanged on any board with the same dimensions and the same
occupant at the destination (no path-clearance check). -/
theorem C8_knight_characterisation (pc : Piece) (b b2 : Board) (t : Pos)
    (hk : pc.kind = PieceKind.N)
    (hb : b.is_within_bounds t = true)
    (hne : pc.position ≠ t)
    (hnx : b2.nx = b.nx) (hny : b2.ny = b.ny) (hnz : b2.nz = b.nz)
    (hat : b2.get_piece t = b.get_piece t) :
    (pc.is_valid_move t b = true ↔
      ((t.x - pc.position.x) ^ 2 + (t.y - pc.position.y) ^ 2 +
          (t.z - pc.position.z) ^ 2 = 5 ∧
        knightDeltaPattern (t.x - pc.position.x) (t.y - pc.position.y)
          (t.z - pc.position.z) ∧
        ∀ q, b.get_piece t = some q → q.color ≠ pc.color)) ∧
      pc.is_valid_move t b2 = pc.is_valid_move t b := by
  have hb2t : b2.is_within_bounds t = b.is_within_bounds t := by
    unfold Board.is_within_bounds
    rw [hnx, hny, hnz]
  constructor
  · rw [is_valid_move_eq_kind hb hne]
    unfold Piece.kind_valid_move
    rw [hk]
    unfold knightValid
    dsimp only
    by_cases hdist : |t.x - pc.position.x| ^ 2 + |t.y - pc.position.y| ^ 2 +
        |t.z - pc.position.z| ^ 2 = 5
    · rw [if_pos hdist]
      have h5 : (t.x - pc.position.x) ^ 2 + (t.y - pc.position.y) ^ 2 +
          (t.z - pc.position.z) ^ 2 = 5 := by
        rw [← sq_abs (t.x - pc.position.x), ← sq_abs (t.y - pc.position.y),
          ← sq_abs (t.z - pc.position.z)]
        exact hdist
      have hpat := (knight_delta_sq_iff _ _ _).mp hdist
      simp only [h5, hpat, true_and]
      unfold captureOk
      rcases hqt : b.get_piece t with _ | q <;> simp [hqt]
    · rw [if_neg hdist]
      apply iff_of_false
      · simp
      · rintro ⟨h5, -, -⟩
        exact hdist (by
          rw [sq_abs, sq_abs, sq_abs]
          exact h5)
  · unfold Piece.is_valid_move
    rw [hb2t]
    unfold Piece.kind_valid_move
    rw [hk]
    unfold knightValid captureOk
    rw [hat]

/-- C8 witness: the knight at (1,1,1) moving to (3,2,1), with the second
board holding an extra adjacent pawn at (2,1,1) that does not affect the
result. -/
theorem C8_knight_characterisation_witness :
    (Piece.is_valid_move ⟨PieceKind.N, Color.W, ⟨1, 1, 1⟩⟩ ⟨3, 2, 1⟩
          knightOnlyBoard = true ↔
        (((3 : Int) - 1) ^ 2 + ((2 : Int) - 1) ^ 2 + ((1 : Int) - 1) ^ 2 = 5 ∧
          knightDeltaPattern ((3 : Int) - 1) ((2 : Int) - 1) ((1 : Int) - 1) ∧
          ∀ q, knightOnlyBoard.get_piece ⟨3, 2, 1⟩ = some q →
            q.color ≠ Color.W)) ∧
      Piece.is_valid_move ⟨PieceKind.N, Color.W, ⟨1, 1, 1⟩⟩ ⟨3, 2, 1⟩
          knightBlockedBoard =
        Piece.is_valid_move ⟨PieceKind.N, Color.W, ⟨1, 1, 1⟩⟩ ⟨3, 2, 1⟩
          knightOnlyBoard :=
  C8_knight_characterisation ⟨PieceKind.N, Color.W, ⟨1, 1, 1⟩⟩ knightOnlyBoard
    knightBlockedBoard ⟨3, 2, 1⟩ rfl (by decide) (by decide) rfl rfl rfl
    (by decide)

end Chess3D
